import Mathlib

/-!
Verification development for the redfetch synchronization client.

Each definition below is a shallow embedding of a function from the
repository sources (src/redfetch/special.py, store.py, download.py,
utils.py, api.py); theorems settle the frozen claims about them.
Python dicts are modelled as association lists, SQLite tables as lists
of rows, and the filesystem as an association list from canonical
component paths to file contents.
-/

namespace Redfetch

/-! ## Special-resource resolver (special.py) -/

/-- Embeds the per-dependency entry of the SPECIAL_RESOURCES map:
`\x7bopt_in: bool, ...\x7d` (only `opt_in` is read by the resolver). -/
structure DepDetails where
  opt_in : Bool
deriving Repr, DecidableEq

/-- Embeds one parent entry of the SPECIAL_RESOURCES map. A dependency
value may be absent (Python `None`), hence `Option DepDetails`. -/
structure ParentDetails where
  opt_in : Bool
  dependencies : List (String × Option DepDetails)
deriving Repr, DecidableEq

/-- The SPECIAL_RESOURCES configuration map (dict id -> details). -/
abbrev SpecialResources := List (String × ParentDetails)

/-- Python truthiness test `dep_details and dep_details.get('opt_in', False)`. -/
def dep_opted_in : Option DepDetails → Bool
  | some d => d.opt_in
  | none => false

/-- The `opted_in_specials` index of `_build_indexes`: ids of entries with
`opt_in` true. -/
def opted_in_specials (srs : SpecialResources) : List String :=
  (srs.filter (fun p => p.2.opt_in)).map Prod.fst

/-- The key set of the `dependency_parents` index of `_build_indexes`:
every dependency id recorded under some opted-in parent with the
dependency entry itself opted in. -/
def opted_in_dep_ids (srs : SpecialResources) : List String :=
  (srs.filter (fun p => p.2.opt_in)).flatMap
    (fun p => (p.2.dependencies.filter (fun d => dep_opted_in d.2)).map Prod.fst)

/-- The value `dependency_parents[dep]` of `_build_indexes` (empty list
standing for an absent key): opted-in parents declaring `dep` as an
opted-in dependency. -/
def dependency_parents (srs : SpecialResources) (dep : String) : List String :=
  ((srs.filter (fun p =>
    p.2.opt_in && p.2.dependencies.any (fun d => d.1 == dep && dep_opted_in d.2))).map Prod.fst)

/-- Result entry of `compute_special_status`. -/
structure SpecialResourceInfo where
  is_special : Bool
  is_dependency : Bool
  parent_ids : List String
deriving Repr, DecidableEq

/-- The candidate set of `compute_special_status(None)`:
opted-in specials united with the dependency-parents index keys. -/
def candidate_ids_none (srs : SpecialResources) : List String :=
  (opted_in_specials srs ++ opted_in_dep_ids srs).dedup

/-- The status record `compute_special_status` builds for one candidate. -/
def status_of (srs : SpecialResources) (rid : String) : SpecialResourceInfo :=
  ⟨(opted_in_specials srs).contains rid,
   !(dependency_parents srs rid).isEmpty,
   dependency_parents srs rid⟩

/-- Embeds `compute_special_status(None)`: every candidate id mapped to
its status record. -/
def compute_special_status_none (srs : SpecialResources) : List (String × SpecialResourceInfo) :=
  (candidate_ids_none srs).map (fun rid => (rid, status_of srs rid))

theorem mem_opted_in_dep_ids (srs : SpecialResources) (rid : String) :
    rid ∈ opted_in_dep_ids srs ↔ dependency_parents srs rid ≠ [] := by
  constructor
  · intro h
    rcases List.mem_flatMap.mp h with ⟨p, hp, hrid⟩
    rcases List.mem_map.mp hrid with ⟨d, hd, hfst⟩
    rcases List.mem_filter.mp hd with ⟨hdmem, hdop⟩
    rcases List.mem_filter.mp hp with ⟨hpmem, hpop⟩
    apply List.ne_nil_of_mem (a := p.1)
    apply List.mem_map_of_mem Prod.fst
    refine List.mem_filter.mpr ⟨hpmem, ?_⟩
    simp only [Bool.and_eq_true]
    refine ⟨hpop, List.any_eq_true.mpr ⟨d, hdmem, ?_⟩⟩
    simp [hfst, hdop]
  · intro h
    rcases List.exists_mem_of_ne_nil _ h with ⟨par, hpar⟩
    rcases List.mem_map.mp hpar with ⟨p, hp, hfst⟩
    rcases List.mem_filter.mp hp with ⟨hpmem, hcond⟩
    simp only [Bool.and_eq_true] at hcond
    obtain ⟨hpop, hany⟩ := hcond
    rcases List.any_eq_true.mp hany with ⟨d, hd, hdc⟩
    simp only [Bool.and_eq_true] at hdc
    obtain ⟨hdeq, hdop⟩ := hdc
    refine List.mem_flatMap.mpr ⟨p, List.mem_filter.mpr ⟨hpmem, hpop⟩, ?_⟩
    refine List.mem_map.mpr ⟨d, List.mem_filter.mpr ⟨hd, hdop⟩, ?_⟩
    exact eq_of_beq hdeq

theorem mem_keys_compute (srs : SpecialResources) (rid : String) :
    rid ∈ (compute_special_status_none srs).map Prod.fst ↔
      rid ∈ candidate_ids_none srs := by
  constructor
  · intro h
    rcases List.mem_map.mp h with ⟨pr, hpr, hfst⟩
    rcases List.mem_map.mp hpr with ⟨y, hy, hpr2⟩
    subst hpr2
    have hyr : y = rid := hfst
    subst hyr
    exact hy
  · intro h
    exact List.mem_map.mpr ⟨_, List.mem_map.mpr ⟨rid, h, rfl⟩, rfl⟩

/-- C1. `compute_special_status(None)` returns a map whose key set is
exactly the opted-in standalone specials united with the ids that occur
as an opted-in dependency of an opted-in parent; for each entry,
`is_special` holds iff the id is an opted-in standalone special,
`is_dependency` holds iff its parent set is non-empty, and both flags
can hold for the same id (witnessed by a configuration whose special id
is also an opted-in dependency of another opted-in parent). -/
theorem c1_compute_special_status_none (srs : SpecialResources) (rid : String) :
    (rid ∈ (compute_special_status_none srs).map Prod.fst ↔
      rid ∈ opted_in_specials srs ∨ dependency_parents srs rid ≠ [])
    ∧ (∀ info, (rid, info) ∈ compute_special_status_none srs →
        ((info.is_special = true ↔ rid ∈ opted_in_specials srs)
          ∧ (info.is_dependency = true ↔ dependency_parents srs rid ≠ [])
          ∧ info.parent_ids = dependency_parents srs rid))
    ∧ (∃ srs2 : SpecialResources, ∃ rid2 info2, (rid2, info2) ∈ compute_special_status_none srs2
        ∧ info2.is_special = true ∧ info2.is_dependency = true) := by
  refine ⟨?_, ?_, ?_⟩
  · rw [mem_keys_compute]
    unfold candidate_ids_none
    rw [List.mem_dedup, List.mem_append, mem_opted_in_dep_ids]
  · intro info hmem
    rcases List.mem_map.mp hmem with ⟨y, _, hpair⟩
    have hy : y = rid := congrArg Prod.fst hpair
    subst hy
    have hinfo : status_of srs y = info := congrArg Prod.snd hpair
    subst hinfo
    refine ⟨?_, ?_, rfl⟩
    · simp [status_of, List.contains, List.elem_iff]
    · simp [status_of, List.isEmpty_iff]
  · refine ⟨[("151", ⟨true, [("153", some ⟨true⟩)]⟩), ("153", ⟨true, []⟩)],
      "153", ⟨true, true, ["151"]⟩, ?_, rfl, rfl⟩
    decide

/-- Witness for C1 at a concrete configuration: resource 153 appears in
the result because it is an opted-in dependency of opted-in parent 151. -/
theorem c1_witness :
    "153" ∈ (compute_special_status_none
      [("151", ⟨true, [("153", some ⟨true⟩)]⟩)]).map Prod.fst :=
  (c1_compute_special_status_none _ "153").1.mpr
    (Or.inr (by decide))

/-! ## Local store (store.py)

The `downloads` table is modelled as a list of rows; `(resource_id,
parent_id)` is its natural key, `parent_id = 0` marking root rows. -/

/-- One row of the `downloads` table. -/
structure Row where
  resource_id : Nat
  parent_id : Nat
  category_id : Nat
  title : String
  version_remote : Nat
  version_local : Nat
  filename : String
  url : String
  hash : Option String
  is_special : Bool
  is_watching : Bool
  is_licensed : Bool
deriving Repr, DecidableEq

/-- The `downloads` table. -/
abbrev DB := List Row

/-- The DownloadTask record assembled by `map_rows_to_download_tasks`. -/
structure DownloadTask where
  resource_id : Nat
  title : String
  category_id : Nat
  remote_version : Nat
  local_version : Nat
  parent_resource_id : Option Nat
  download_url : String
  filename : String
  file_hash : Option String
deriving Repr, DecidableEq

/-- Row of the root query of `fetch_watched_db_resources` mapped to a
task: `NULL as parent_resource_id`, own `category_id`. -/
def root_task (r : Row) : DownloadTask :=
  ⟨r.resource_id, r.title, r.category_id, r.version_remote, r.version_local,
   none, r.url, r.filename, r.hash⟩

/-- Row of the dependency join of `fetch_watched_db_resources` mapped to
a task: `p.category_id as parent_category_id` and
`d.parent_id as parent_resource_id`. -/
def dep_task (d p : Row) : DownloadTask :=
  ⟨d.resource_id, d.title, p.category_id, d.version_remote, d.version_local,
   some d.parent_id, d.url, d.filename, d.hash⟩

/-- The WHERE clause of the flagged-roots query:
`parent_id = 0 AND (is_watching=1 OR is_special=1 OR is_licensed=1)`. -/
def is_flagged_root (r : Row) : Bool :=
  r.parent_id == 0 && (r.is_watching || r.is_special || r.is_licensed)

/-- Result of the flagged-roots query of `fetch_watched_db_resources`. -/
def flagged_root_tasks (db : DB) : List DownloadTask :=
  (db.filter is_flagged_root).map root_task

/-- Result of the all-roots fallback query (`WHERE parent_id = 0`). -/
def all_root_tasks (db : DB) : List DownloadTask :=
  (db.filter (fun r => r.parent_id == 0)).map root_task

/-- Result of the dependency query: dependency rows joined to their root
parent row (`JOIN downloads p ON p.resource_id=d.parent_id AND
p.parent_id = 0`), category taken from the parent. -/
def joined_dep_tasks (db : DB) : List DownloadTask :=
  (db.filter (fun d => d.parent_id != 0)).flatMap (fun d =>
    (db.filter (fun p => p.resource_id == d.parent_id && p.parent_id == 0)).map (dep_task d))

/-- Embeds `fetch_watched_db_resources`: flagged roots plus joined
dependency rows; if that is empty, fall back to all roots plus joined
dependency rows. -/
def fetch_watched_db_resources (db : DB) : List DownloadTask :=
  if (flagged_root_tasks db ++ joined_dep_tasks db).isEmpty then
    all_root_tasks db ++ joined_dep_tasks db
  else
    flagged_root_tasks db ++ joined_dep_tasks db

theorem mem_flagged_root_tasks (db : DB) (t : DownloadTask) :
    t ∈ flagged_root_tasks db ↔
      ∃ r ∈ db, r.parent_id = 0
        ∧ (r.is_watching = true ∨ r.is_special = true ∨ r.is_licensed = true)
        ∧ t = root_task r := by
  simp only [flagged_root_tasks, is_flagged_root, List.mem_map, List.mem_filter,
    Bool.and_eq_true, Bool.or_eq_true, beq_iff_eq]
  constructor
  · rintro ⟨r, ⟨hmem, hpid, hflag⟩, rfl⟩
    exact ⟨r, hmem, hpid, or_assoc.mp hflag, rfl⟩
  · rintro ⟨r, hmem, hpid, hflag, rfl⟩
    exact ⟨r, ⟨hmem, hpid, or_assoc.mpr hflag⟩, rfl⟩

theorem mem_joined_dep_tasks (db : DB) (t : DownloadTask) :
    t ∈ joined_dep_tasks db ↔
      ∃ d ∈ db, ∃ p ∈ db, d.parent_id ≠ 0 ∧ p.parent_id = 0
        ∧ p.resource_id = d.parent_id ∧ t = dep_task d p := by
  simp only [joined_dep_tasks, List.mem_flatMap, List.mem_map, List.mem_filter,
    Bool.and_eq_true, beq_iff_eq, bne_iff_ne, ne_eq]
  constructor
  · rintro ⟨d, ⟨hdmem, hdpid⟩, p, ⟨hpmem, hprid, hppid⟩, rfl⟩
    exact ⟨d, hdmem, p, hpmem, hdpid, hppid, hprid, rfl⟩
  · rintro ⟨d, hdmem, p, hpmem, hdpid, hppid, hprid, rfl⟩
    exact ⟨d, ⟨hdmem, hdpid⟩, p, ⟨hpmem, hprid, hppid⟩, rfl⟩

/-- C2 counterexample: a store whose only row is a root row with none of
`is_watching`, `is_special`, `is_licensed` set. The claim predicts an
empty queue (the row is neither a flagged root nor a dependency row),
but the code's fallback branch returns the row anyway. -/
theorem c2_counterexample :
    (fetch_watched_db_resources
        [⟨1, 0, 10, "t", 3, 0, "f.zip", "u", none, false, false, false⟩]).length = 1
    ∧ flagged_root_tasks
        [⟨1, 0, 10, "t", 3, 0, "f.zip", "u", none, false, false, false⟩] = []
    ∧ joined_dep_tasks
        [⟨1, 0, 10, "t", 3, 0, "f.zip", "u", none, false, false, false⟩] = [] := by
  refine ⟨rfl, rfl, rfl⟩

/-- C2 amended. Whenever at least one flagged root or one joined
dependency row exists, `fetch_watched_db_resources` returns exactly the
root rows with a watched/special/licensed flag set plus the dependency
rows that join to an existing root parent row, each dependency task
taking its `category_id` from the root parent's row; no other rows are
returned. (When no such row exists, a legacy fallback instead returns
every root row plus the joined dependency rows.) -/
theorem c2_fetch_watched_db_resources (db : DB) (t : DownloadTask)
    (h : flagged_root_tasks db ++ joined_dep_tasks db ≠ []) :
    t ∈ fetch_watched_db_resources db ↔
      ((∃ r ∈ db, r.parent_id = 0
          ∧ (r.is_watching = true ∨ r.is_special = true ∨ r.is_licensed = true)
          ∧ t = root_task r)
        ∨ (∃ d ∈ db, ∃ p ∈ db, d.parent_id ≠ 0 ∧ p.parent_id = 0
            ∧ p.resource_id = d.parent_id ∧ t = dep_task d p
            ∧ t.category_id = p.category_id ∧ t.parent_resource_id = some d.parent_id)) := by
  have hq : fetch_watched_db_resources db
      = flagged_root_tasks db ++ joined_dep_tasks db := by
    unfold fetch_watched_db_resources
    rw [if_neg]
    simpa [List.isEmpty_iff] using h
  rw [hq, List.mem_append, mem_flagged_root_tasks, mem_joined_dep_tasks]
  constructor
  · rintro (h1 | ⟨d, hdmem, p, hpmem, h1, h2, h3, rfl⟩)
    · exact Or.inl h1
    · exact Or.inr ⟨d, hdmem, p, hpmem, h1, h2, h3, rfl, rfl, rfl⟩
  · rintro (h1 | ⟨d, hdmem, p, hpmem, h1, h2, h3, ht, _, _⟩)
    · exact Or.inl h1
    · exact Or.inr ⟨d, hdmem, p, hpmem, h1, h2, h3, ht⟩

/-- Witness for C2 at a concrete store: one watched root and one
dependency row joined to it; the dependency task carries the parent's
category. -/
theorem c2_witness :
    (⟨153, "dep", 7, 4, 0, some 151, "udep", "dep.zip", none⟩ : DownloadTask)
      ∈ fetch_watched_db_resources
        [⟨151, 0, 7, "root", 5, 0, "root.zip", "uroot", none, false, true, false⟩,
         ⟨153, 151, 99, "dep", 4, 0, "dep.zip", "udep", none, false, false, false⟩] :=
  (c2_fetch_watched_db_resources _ _ (by decide)).mpr
    (Or.inr ⟨⟨153, 151, 99, "dep", 4, 0, "dep.zip", "udep", none, false, false, false⟩,
      by decide,
      ⟨151, 0, 7, "root", 5, 0, "root.zip", "uroot", none, false, true, false⟩,
      by decide, by decide, rfl, rfl, rfl, rfl, rfl⟩)

/-! ### Post-full-sync cleanup (`clean_up_unnecessary_resources`) -/

/-- The `resource_ids` set: ids of `current_ids` pairs whose parent is `None`. -/
def cu_resource_ids (current : List (Option Nat × Nat)) : List Nat :=
  current.filterMap (fun pr => match pr.1 with | none => some pr.2 | some _ => none)

/-- The `parent_ids` set: parents of `current_ids` pairs whose parent is set. -/
def cu_parent_ids (current : List (Option Nat × Nat)) : List Nat :=
  current.filterMap (fun pr => pr.1)

/-- The union `all_resource_ids = resource_ids | parent_ids`. -/
def cu_all_resource_ids (current : List (Option Nat × Nat)) : List Nat :=
  cu_resource_ids current ++ cu_parent_ids current

/-- The `dependency_pairs` set: the `(parent_id, resource_id)` pairs of `current_ids`. -/
def cu_dependency_pairs (current : List (Option Nat × Nat)) : List (Nat × Nat) :=
  current.filterMap (fun pr => match pr.1 with | some pid => some (pid, pr.2) | none => none)

/-- The `UPDATE downloads SET is_watching=0 WHERE parent_id = 0 AND
resource_id NOT IN all_resource_ids` statement, acting on one row. -/
def cu_demote (allIds : List Nat) (r : Row) : Row :=
  if r.parent_id == 0 && !(allIds.contains r.resource_id) then
    { r with is_watching := false }
  else r

/-- The root pass of `clean_up_unnecessary_resources`: demote watching,
then delete absent licensed roots, then delete absent special roots. -/
def cu_root_pass (db : DB) (allIds : List Nat) : DB :=
  (((db.map (cu_demote allIds)).filter (fun r =>
      !(r.parent_id == 0 && r.is_licensed && !(allIds.contains r.resource_id)))).filter (fun r =>
      !(r.parent_id == 0 && r.is_special && !(allIds.contains r.resource_id))))

/-- Root pass guarded by `if all_resource_ids:` — skipped entirely when
the id set is empty. -/
def cu_stage1 (db : DB) (current : List (Option Nat × Nat)) : DB :=
  if (cu_all_resource_ids current).isEmpty then db
  else cu_root_pass db (cu_all_resource_ids current)

/-- Embeds `clean_up_unnecessary_resources`: root pass, then (guarded by
`if dependency_pairs:`) deletion of dependency rows whose pair is not
current. The `last_fetch_time` stamp touches the metadata table only and
is not part of the row model. -/
def clean_up_unnecessary_resources (db : DB) (current : List (Option Nat × Nat)) : DB :=
  if (cu_dependency_pairs current).isEmpty then cu_stage1 db current
  else
    (cu_stage1 db current).filter (fun r =>
      !((r.parent_id != 0) && !((cu_dependency_pairs current).contains (r.parent_id, r.resource_id))))

theorem contains_iff_mem_nat (l : List Nat) (a : Nat) : l.contains a = true ↔ a ∈ l := by
  simp [List.contains, List.elem_iff]

theorem contains_iff_mem_pair (l : List (Nat × Nat)) (a : Nat × Nat) :
    l.contains a = true ↔ a ∈ l := by
  simp [List.contains, List.elem_iff]

theorem mem_cu_root_pass (db : DB) (allIds : List Nat) (r : Row) :
    r ∈ cu_root_pass db allIds ↔
      (∃ s ∈ db, r = cu_demote allIds s)
      ∧ (r.parent_id == 0 && r.is_licensed && !(allIds.contains r.resource_id)) = false
      ∧ (r.parent_id == 0 && r.is_special && !(allIds.contains r.resource_id)) = false := by
  simp only [cu_root_pass, List.mem_filter, List.mem_map, Bool.not_eq_true']
  constructor
  · rintro ⟨⟨⟨s, hs, rfl⟩, h1⟩, h2⟩
    exact ⟨⟨s, hs, rfl⟩, h1, h2⟩
  · rintro ⟨⟨s, hs, rfl⟩, h1, h2⟩
    exact ⟨⟨⟨s, hs, rfl⟩, h1⟩, h2⟩

/-- C3 counterexample: a store holding one special root row and an empty
`current_ids` set. The claim predicts the absent special root is
deleted, but the code guards the whole root pass behind
`if all_resource_ids:` and leaves the store untouched. -/
theorem c3_counterexample :
    clean_up_unnecessary_resources
        [⟨1, 0, 5, "s", 2, 0, "s.zip", "u", none, true, false, false⟩] []
      = [⟨1, 0, 5, "s", 2, 0, "s.zip", "u", none, true, false, false⟩]
    ∧ (⟨1, 0, 5, "s", 2, 0, "s.zip", "u", none, true, false, false⟩ : Row).is_special = true
    ∧ (1 : Nat) ∉ cu_all_resource_ids [] := ⟨rfl, rfl, by decide⟩

/-- C3 amended. Provided the derived root/parent id set and the derived
dependency-pair set are both non-empty (the code skips the corresponding
pass when its set is empty, and absence is measured against the union of
current root ids and current dependency parent ids): absent licensed or
special roots are deleted, absent roots are demoted to
`is_watching = 0` but watched-only roots are kept, present roots are
kept unchanged, and a dependency row is kept (unchanged) exactly when
its `(parent_id, resource_id)` pair is current. -/
theorem c3_clean_up_unnecessary_resources (db : DB) (current : List (Option Nat × Nat))
    (hA : cu_all_resource_ids current ≠ []) (hP : cu_dependency_pairs current ≠ []) :
    (∀ r ∈ clean_up_unnecessary_resources db current,
        r.parent_id = 0 → (r.is_licensed = true ∨ r.is_special = true) →
          r.resource_id ∈ cu_all_resource_ids current)
    ∧ (∀ r ∈ clean_up_unnecessary_resources db current,
        r.parent_id = 0 → r.resource_id ∉ cu_all_resource_ids current →
          r.is_watching = false)
    ∧ (∀ r ∈ db, r.parent_id = 0 → r.is_licensed = false → r.is_special = false →
        r.resource_id ∉ cu_all_resource_ids current →
          { r with is_watching := false } ∈ clean_up_unnecessary_resources db current)
    ∧ (∀ r ∈ db, r.parent_id = 0 → r.resource_id ∈ cu_all_resource_ids current →
        r ∈ clean_up_unnecessary_resources db current)
    ∧ (∀ r ∈ clean_up_unnecessary_resources db current,
        r.parent_id ≠ 0 → (r.parent_id, r.resource_id) ∈ cu_dependency_pairs current)
    ∧ (∀ r ∈ db, r.parent_id ≠ 0 → (r.parent_id, r.resource_id) ∈ cu_dependency_pairs current →
        r ∈ clean_up_unnecessary_resources db current) := by
  have hres : clean_up_unnecessary_resources db current
      = (cu_root_pass db (cu_all_resource_ids current)).filter (fun r =>
          !((r.parent_id != 0)
            && !((cu_dependency_pairs current).contains (r.parent_id, r.resource_id)))) := by
    simp [clean_up_unnecessary_resources, cu_stage1, List.isEmpty_iff, hA, hP]
  refine ⟨?_, ?_, ?_, ?_, ?_, ?_⟩
  · intro r hr h0 hfl
    rw [hres] at hr
    have hpass := (mem_cu_root_pass db _ r).mp (List.mem_filter.mp hr).1
    rcases hfl with hl | hs
    · have := hpass.2.1
      simp [h0, hl] at this
      exact this
    · have := hpass.2.2
      simp [h0, hs] at this
      exact this
  · intro r hr h0 habs
    rw [hres] at hr
    obtain ⟨⟨s, _, hdem⟩, _, _⟩ := (mem_cu_root_pass db _ r).mp (List.mem_filter.mp hr).1
    have hcontains : (cu_all_resource_ids current).contains r.resource_id = false := by
      rw [Bool.eq_false_iff]
      intro hc
      exact habs ((contains_iff_mem_nat _ _).mp hc)
    unfold cu_demote at hdem
    split at hdem
    · rw [hdem]
    · subst hdem
      rename_i hcond
      rw [h0, hcontains] at hcond
      simp at hcond
  · intro r hr h0 hlic hspec habs
    rw [hres]
    have hcontains : (cu_all_resource_ids current).contains r.resource_id = false := by
      rw [Bool.eq_false_iff]
      intro hc
      exact habs ((contains_iff_mem_nat _ _).mp hc)
    refine List.mem_filter.mpr ⟨(mem_cu_root_pass db _ _).mpr ⟨⟨r, hr, ?_⟩, ?_, ?_⟩, ?_⟩
    · simp [cu_demote, h0, habs]
    · simp [hlic]
    · simp [hspec]
    · simp [h0]
  · intro r hr h0 hpres
    rw [hres]
    refine List.mem_filter.mpr ⟨(mem_cu_root_pass db _ _).mpr ⟨⟨r, hr, ?_⟩, ?_, ?_⟩, ?_⟩
    · simp [cu_demote, hpres]
    · simp [hpres]
    · simp [hpres]
    · simp [h0]
  · intro r hr hdep
    rw [hres] at hr
    have hkeep := (List.mem_filter.mp hr).2
    simp only [Bool.not_eq_true', Bool.and_eq_false_iff, bne_eq_false_iff_eq,
      Bool.not_eq_false] at hkeep
    rcases hkeep with h | h
    · exact absurd h hdep
    · exact (contains_iff_mem_pair _ _).mp (by simpa using h)
  · intro r hr hdep hpair
    rw [hres]
    have hne : (r.parent_id == 0) = false := by
      rw [beq_eq_false_iff_ne]
      exact hdep
    refine List.mem_filter.mpr ⟨(mem_cu_root_pass db _ _).mpr ⟨⟨r, hr, ?_⟩, ?_, ?_⟩, ?_⟩
    · simp [cu_demote, hne]
    · simp [hne]
    · simp [hne]
    · simp [hpair]

/-- Witness for C3 at a concrete store: with current ids
`[(None, 2), (2, 3)]`, the absent special root 1 is deleted while the
present dependency row `(2, 3)` is kept. -/
theorem c3_witness :
    (⟨3, 2, 9, "dep", 4, 0, "d.zip", "u", none, false, false, false⟩ : Row)
      ∈ clean_up_unnecessary_resources
        [⟨1, 0, 5, "s", 2, 0, "s.zip", "u", none, true, false, false⟩,
         ⟨3, 2, 9, "dep", 4, 0, "d.zip", "u", none, false, false, false⟩]
        [(none, 2), (some 2, 3)] :=
  ((c3_clean_up_unnecessary_resources
      [⟨1, 0, 5, "s", 2, 0, "s.zip", "u", none, true, false, false⟩,
       ⟨3, 2, 9, "dep", 4, 0, "d.zip", "u", none, false, false, false⟩]
      [(none, 2), (some 2, 3)] (by decide) (by decide)).2.2.2.2.2)
    ⟨3, 2, 9, "dep", 4, 0, "d.zip", "u", none, false, false, false⟩
    (by decide) (by decide) (by decide)

/-! ### Version updates (`apply_updates`) -/

/-- One tuple of an `apply_updates` batch:
`(resource_id, remote_version, is_dependency, parent_resource_id)`. -/
structure VersionUpdate where
  resource_id : Nat
  remote_version : Nat
  is_dependency : Bool
  parent_resource_id : Option Nat
deriving Repr, DecidableEq

/-- One UPDATE statement of `apply_updates`. The branch guard mirrors
Python's `if is_dependency and parent_resource_id:` — with no parent id
supplied the statement falls through to the root-row match. -/
def run_update (db : DB) (u : VersionUpdate) : DB :=
  match u.is_dependency, u.parent_resource_id with
  | true, some parent =>
      db.map (fun r =>
        if r.resource_id == u.resource_id && r.parent_id == parent then
          { r with version_local := u.remote_version } else r)
  | _, _ =>
      db.map (fun r =>
        if r.resource_id == u.resource_id && r.parent_id == 0 then
          { r with version_local := u.remote_version } else r)

/-- The BEGIN…COMMIT body of `apply_updates`: statements run in order;
a failing statement (modelled by the oracle `fails`) raises, yielding
`none` (the rollback path of the `except` clause). -/
def apply_updates_tx (db : DB) (updates : List VersionUpdate)
    (fails : VersionUpdate → Bool) : Option DB :=
  match updates with
  | [] => some db
  | u :: rest => if fails u then none else apply_updates_tx (run_update db u) rest fails

/-- Embeds `apply_updates`: on commit the folded state becomes visible;
on rollback the connection's visible state stays the input `db`. The
Bool records whether the batch committed. -/
def apply_updates (db : DB) (updates : List VersionUpdate)
    (fails : VersionUpdate → Bool) : DB × Bool :=
  match apply_updates_tx db updates fails with
  | some db2 => (db2, true)
  | none => (db, false)

/-- The row matcher exactly as the claim words it (refinement
comparison only): `parent_id=0` when `is_dependency` is false, and
`parent_id = parent_resource_id` when it is true. -/
def claim_match (u : VersionUpdate) (r : Row) : Bool :=
  r.resource_id == u.resource_id &&
    (if u.is_dependency then some r.parent_id == u.parent_resource_id else r.parent_id == 0)

/-- One update applied under the claim's matcher (refinement comparison
only). -/
def claim_run_update (db : DB) (u : VersionUpdate) : DB :=
  db.map (fun r =>
    if claim_match u r then { r with version_local := u.remote_version } else r)

/-- The matcher the code actually implements: the dependency match
requires a parent id to be present, otherwise the root row is matched. -/
def amended_match (u : VersionUpdate) (r : Row) : Bool :=
  r.resource_id == u.resource_id &&
    (match u.is_dependency, u.parent_resource_id with
     | true, some parent => r.parent_id == parent
     | _, _ => r.parent_id == 0)

theorem apply_updates_tx_eq_none (db : DB) (updates : List VersionUpdate)
    (fails : VersionUpdate → Bool) (h : ∃ u ∈ updates, fails u = true) :
    apply_updates_tx db updates fails = none := by
  induction updates generalizing db with
  | nil => simp at h
  | cons u rest ih =>
    by_cases hu : fails u = true
    · simp [apply_updates_tx, hu]
    · rcases h with ⟨v, hv, hfv⟩
      rcases List.mem_cons.mp hv with rfl | hv2
      · exact absurd hfv hu
      · simp [apply_updates_tx, hu]
        exact ih _ ⟨v, hv2, hfv⟩

theorem apply_updates_tx_eq_some (db : DB) (updates : List VersionUpdate)
    (fails : VersionUpdate → Bool) (h : ∀ u ∈ updates, fails u = false) :
    apply_updates_tx db updates fails = some (updates.foldl run_update db) := by
  induction updates generalizing db with
  | nil => rfl
  | cons u rest ih =>
    have hu : fails u = false := h u (List.mem_cons_self u rest)
    simp [apply_updates_tx, hu, List.foldl_cons]
    exact ih _ (fun v hv => h v (List.mem_cons_of_mem u hv))

/-- C4 counterexample: a batch containing the tuple
`(1, 7, is_dependency := True, parent_resource_id := None)` against a
store with the single root row `(1, 0)`. The claim's matcher
(`parent_id = parent_resource_id` when `is_dependency` is true) matches
no row, yet the code's fallthrough branch updates the root row's
`version_local` to 7. -/
theorem c4_counterexample :
    (apply_updates
        [⟨1, 0, 5, "t", 7, 0, "f.zip", "u", none, false, false, false⟩]
        [⟨1, 7, true, none⟩] (fun _ => false)).1
      = [⟨1, 0, 5, "t", 7, 7, "f.zip", "u", none, false, false, false⟩]
    ∧ claim_run_update
        [⟨1, 0, 5, "t", 7, 0, "f.zip", "u", none, false, false, false⟩]
        ⟨1, 7, true, none⟩
      = [⟨1, 0, 5, "t", 7, 0, "f.zip", "u", none, false, false, false⟩] :=
  ⟨rfl, rfl⟩

/-- C4 amended. The batch is applied inside a single transaction: if any
statement fails the whole batch rolls back and the visible store is the
unchanged input (all-or-nothing); if none fails, the batch commits as
the in-order fold of the single-row-set updates, where each tuple sets
`version_local = remote_version` on the rows matched by `parent_id = 0`
when `is_dependency` is false or no parent id is supplied, and by
`parent_id = parent_resource_id` when `is_dependency` is true and the
parent id is supplied. -/
theorem c4_apply_updates (db : DB) (updates : List VersionUpdate)
    (fails : VersionUpdate → Bool) :
    ((∃ u ∈ updates, fails u = true) → apply_updates db updates fails = (db, false))
    ∧ ((∀ u ∈ updates, fails u = false) →
        apply_updates db updates fails = (updates.foldl run_update db, true))
    ∧ (∀ (db2 : DB) (u : VersionUpdate), run_update db2 u
        = db2.map (fun r =>
            if amended_match u r then { r with version_local := u.remote_version } else r)) := by
  refine ⟨?_, ?_, ?_⟩
  · intro h
    unfold apply_updates
    rw [apply_updates_tx_eq_none db updates fails h]
  · intro h
    unfold apply_updates
    rw [apply_updates_tx_eq_some db updates fails h]
  · intro db2 u
    rcases u with ⟨rid, v, dep, par⟩
    cases dep <;> cases par <;> rfl

/-- Witness for C4: a failing single-statement batch leaves a concrete
store unchanged and reports no commit. -/
theorem c4_witness :
    apply_updates
        [⟨1, 0, 5, "t", 7, 0, "f.zip", "u", none, false, false, false⟩]
        [⟨1, 7, false, none⟩] (fun _ => true)
      = ([⟨1, 0, 5, "t", 7, 0, "f.zip", "u", none, false, false, false⟩], false) :=
  (c4_apply_updates _ _ _).1 ⟨⟨1, 7, false, none⟩, by decide, rfl⟩

/-! ### Upsert (`insert_prepared_resource`) -/

/-- The file payload of a prepared resource (models.FileInfo). -/
structure FileInfo where
  filename : String
  url : String
  hash : Option String
deriving Repr, DecidableEq

/-- A prepared resource (models.Resource fields read by the upsert). -/
structure Resource where
  resource_id : Nat
  category_id : Nat
  title : String
  version : Nat
  file : FileInfo
  is_watching : Bool
  is_licensed : Bool
deriving Repr, DecidableEq

/-- Computes `parent = int(parent_id) if (is_dependency and parent_id is not
None) else 0`. -/
def upsert_parent (is_dependency : Bool) (parent_id : Option Nat) : Nat :=
  match is_dependency, parent_id with
  | true, some p => p
  | _, _ => 0

/-- The stored `is_special` column:
`int(bool(is_special) and not is_dependency)`. -/
def upsert_special_col (is_special is_dependency : Bool) : Bool :=
  is_special && !is_dependency

/-- Embeds `insert_prepared_resource`: INSERT … ON CONFLICT(resource_id,
parent_id) DO UPDATE overwriting every mutable column except
`version_local` (new rows get the column default 0). `license_active`
models `license_details and license_details.get('active', False)`. -/
def insert_prepared_resource (db : DB) (res : Resource) (is_special is_dependency : Bool)
    (parent_id : Option Nat) (license_active : Bool) : DB :=
  if db.any (fun r => r.resource_id == res.resource_id
      && r.parent_id == upsert_parent is_dependency parent_id) then
    db.map (fun r =>
      if r.resource_id == res.resource_id
          && r.parent_id == upsert_parent is_dependency parent_id then
        { r with
          category_id := res.category_id
          title := res.title
          version_remote := res.version
          filename := res.file.filename
          url := res.file.url
          hash := res.file.hash
          is_special := upsert_special_col is_special is_dependency
          is_watching := res.is_watching
          is_licensed := res.is_licensed || license_active }
      else r)
  else
    db ++ [⟨res.resource_id, upsert_parent is_dependency parent_id, res.category_id,
      res.title, res.version, 0, res.file.filename, res.file.url, res.file.hash,
      upsert_special_col is_special is_dependency, res.is_watching,
      res.is_licensed || license_active⟩]

theorem upsert_parent_ne_zero (is_dependency : Bool) (parent_id : Option Nat)
    (h : upsert_parent is_dependency parent_id ≠ 0) : is_dependency = true := by
  cases is_dependency
  · cases parent_id <;> simp [upsert_parent] at h
  · rfl

/-- C10. The upsert preserves the invariant that every dependency row
(`parent_id ≠ 0`) stores `is_special = 0`: the stored column is
`is_special AND NOT is_dependency`, and a non-root key is only produced
when `is_dependency` is true; moreover, when a dependency row is
written, the row stored under its key has `is_special = 0` even when the
resource itself is an opted-in special. -/
theorem c10_insert_prepared_resource (db : DB) (res : Resource)
    (is_special is_dependency : Bool) (parent_id : Option Nat) (license_active : Bool)
    (hinv : ∀ r ∈ db, r.parent_id ≠ 0 → r.is_special = false) :
    (∀ r ∈ insert_prepared_resource db res is_special is_dependency parent_id license_active,
        r.parent_id ≠ 0 → r.is_special = false)
    ∧ (∀ p, is_dependency = true → parent_id = some p →
        ∀ r ∈ insert_prepared_resource db res is_special is_dependency parent_id license_active,
          r.resource_id = res.resource_id → r.parent_id = p → p ≠ 0 →
            r.is_special = false) := by
  have hmain : ∀ r ∈ insert_prepared_resource db res is_special is_dependency
      parent_id license_active, r.parent_id ≠ 0 → r.is_special = false := by
    intro r hr hpid
    unfold insert_prepared_resource at hr
    split at hr
    · rcases List.mem_map.mp hr with ⟨s, hs, rfl⟩
      by_cases hcond : (s.resource_id == res.resource_id
          && s.parent_id == upsert_parent is_dependency parent_id) = true
      · rw [if_pos hcond]
        rw [if_pos hcond] at hpid
        simp only [Bool.and_eq_true, beq_iff_eq] at hcond
        have hdep : is_dependency = true := by
          apply upsert_parent_ne_zero is_dependency parent_id
          intro hz
          apply hpid
          simpa [hz] using hcond.2
        simp [upsert_special_col, hdep]
      · rw [if_neg hcond]
        rw [if_neg hcond] at hpid
        exact hinv s hs hpid
    · rcases List.mem_append.mp hr with hs | hnew
      · exact hinv r hs hpid
      · rcases List.mem_singleton.mp hnew with rfl
        have hdep : is_dependency = true :=
          upsert_parent_ne_zero is_dependency parent_id hpid
        simp [upsert_special_col, hdep]
  refine ⟨hmain, ?_⟩
  intro p _ _ r hr _ hpid hp
  exact hmain r hr (by rw [hpid]; exact hp)

/-- Witness for C10 at a concrete store: upserting special resource 153
as a dependency of 151 over an existing dependency row leaves that row's
`is_special` at 0. -/
theorem c10_witness :
    (⟨153, 151, 9, "d", 5, 2, "d2.zip", "u2", none, false, true, false⟩ : Row).is_special
      = false :=
  (c10_insert_prepared_resource
      [⟨153, 151, 9, "d", 4, 2, "d.zip", "u", none, false, false, false⟩]
      ⟨153, 9, "d", 5, ⟨"d2.zip", "u2", none⟩, true, false⟩
      true true (some 151) false (by decide)).1
    ⟨153, 151, 9, "d", 5, 2, "d2.zip", "u2", none, false, true, false⟩
    (by decide) (by decide)

/-! ## Downloader (download.py) -/

/-- Observable outcome of one `download_file_async` invocation:
the returned Bool, whether a temp file remains, and whether this call
produced a file at the final destination path. -/
structure DownloadOutcome where
  success : Bool
  tmp_remains : Bool
  final_written : Bool
deriving Repr, DecidableEq

/-- Models Python `str.lower()` characterwise. -/
def str_lower (s : String) : String :=
  ⟨s.data.map Char.toLower⟩

/-- Models Python `str.strip()`: drop leading and trailing whitespace. -/
def str_strip (s : String) : String :=
  ⟨(((s.data.dropWhile Char.isWhitespace).reverse.dropWhile Char.isWhitespace).reverse)⟩

/-- Embeds the comparison inside `_hash_matches`:
`hasher.hexdigest().lower()` against `expected_md5.strip().lower()`. -/
def hash_comparison (digest_hex expected_md5 : String) : Bool :=
  str_lower digest_hex == str_lower (str_strip expected_md5)

/-- Embeds the verification tail of `download_file_async`, with
`digest_hex` the hex digest of the streamed body. A hasher exists only
for a truthy (non-empty) `expected_md5`; on mismatch `_hash_matches`
removes the temp file and the function returns False before
`os.replace` runs, so no file appears at the final path; on success
`os.replace` consumes the temp file into the final path; the `finally`
block removes any temp file that remains without a final file. -/
def download_file_async (digest_hex : String) (expected_md5 : Option String) :
    DownloadOutcome :=
  match expected_md5 with
  | some e =>
      if e == "" then ⟨true, false, true⟩
      else if hash_comparison digest_hex e then ⟨true, false, true⟩
      else ⟨false, false, false⟩
  | none => ⟨true, false, true⟩

/-- C5 counterexample: with expected hash `" a"` (or `""`) and computed
digest `"a"`, the two differ under plain case-insensitive comparison,
yet the download succeeds and creates the final file — the code strips
whitespace from the expected hash first, and skips verification
entirely for a falsy (empty) expected hash. -/
theorem c5_counterexample :
    download_file_async "a" (some " a") = ⟨true, false, true⟩
    ∧ str_lower "a" ≠ str_lower " a"
    ∧ download_file_async "a" (some "") = ⟨true, false, true⟩
    ∧ str_lower "a" ≠ str_lower "" := by
  refine ⟨by decide, by decide, rfl, by decide⟩

/-- C5 amended. When a non-empty expected hash is supplied and the
computed digest differs from the whitespace-stripped expected hash under
case-insensitive comparison, the download reports failure, the temp
file is removed, and no file is created at the final destination. -/
theorem c5_download_file_async (digest_hex expected : String)
    (hne : expected ≠ "") (h : str_lower digest_hex ≠ str_lower (str_strip expected)) :
    download_file_async digest_hex (some expected) = ⟨false, false, false⟩ := by
  have he : (expected == "") = false := by
    rw [beq_eq_false_iff_ne]
    exact hne
  have hc : hash_comparison digest_hex expected = false := by
    unfold hash_comparison
    rw [beq_eq_false_iff_ne]
    exact h
  simp [download_file_async, he, hc]

/-- Witness for C5 at concrete hashes: digest `"ab"` against expected
`"cd"` fails with no temp file and no final file. -/
theorem c5_witness :
    download_file_async "ab" (some "cd") = ⟨false, false, false⟩ :=
  c5_download_file_async "ab" "cd" (by decide) (by decide)

/-! ## Archive extraction (download.py, utils.py)

Paths are absolute and modelled as their component lists; the
filesystem is an association list from canonical paths to contents (no
symbolic links, so `os.path.realpath` coincides with normalization). -/

/-- An absolute path as its list of components. -/
abbrev FsPath := List String

/-- One component step of `os.path.normpath`: drop `.` and empty
components, resolve `..` against the accumulated prefix (staying at the
root when there is no parent). -/
def norm_step (acc : List String) (c : String) : List String :=
  if c == "." || c == "" then acc
  else if c == ".." then acc.dropLast
  else acc ++ [c]

/-- Embeds `os.path.normpath` (and, absent symlinks, `os.path.realpath`)
on an absolute path. -/
def normpath (p : FsPath) : FsPath := p.foldl norm_step []

/-- Embeds `os.path.commonpath` of two absolute paths: the longest
common component run. -/
def commonpath : FsPath → FsPath → FsPath
  | a :: as, b :: bs => if a == b then a :: commonpath as bs else []
  | _, _ => []

/-- Embeds `is_safe_path` from utils.py: the common canonical path of
base and target must equal the canonical base. -/
def is_safe_path (base target : FsPath) : Bool :=
  commonpath (normpath base) (normpath target) == normpath base

/-- The filesystem: file contents stored at canonical paths. -/
abbrev Fs := List (FsPath × String)

/-- Contents at a path. -/
def fs_read (fs : Fs) (p : FsPath) : Option String :=
  match fs.find? (fun e => e.1 == p) with
  | some e => some e.2
  | none => none

/-- Embeds `os.path.exists` on the modelled tree. -/
def fs_exists (fs : Fs) (p : FsPath) : Bool := (fs_read fs p).isSome

/-- A file write (creating or overwriting). -/
def fs_write (fs : Fs) (p : FsPath) (data : String) : Fs :=
  (p, data) :: fs.filter (fun e => e.1 != p)

/-- One archive member: its name split into components, whether the
name carries a trailing slash (`ZipInfo.is_dir()`), its contents, and
its declared uncompressed size. -/
structure ZipEntry where
  parts : List String
  is_dir : Bool
  data : String
  file_size : Nat
deriving Repr, DecidableEq

/-- Embeds `os.path.basename(member.filename)`: the last component, empty for
a trailing-slash directory name. -/
def zip_basename (e : ZipEntry) : String :=
  if e.is_dir then "" else e.parts.getLastD ""

/-- Embeds `is_protected`: the basename (case-insensitively) occurs in
the protected list and a file already exists at the target path. -/
def is_protected (filename : String) (target_path : FsPath)
    (protected_files : List String) (fs : Fs) : Bool :=
  protected_files.any (fun f => str_lower f == str_lower filename) && fs_exists fs target_path

/-- Loop body of `extract_flattened`: basename-only target, protected
check, then path-safety check before the member write. -/
def flatten_step (extract_to : FsPath) (protected_files : List String)
    (fs : Fs) (e : ZipEntry) : Fs :=
  if zip_basename e == "" then fs
  else if is_protected (zip_basename e) (normpath (extract_to ++ [zip_basename e]))
      protected_files fs then fs
  else if is_safe_path extract_to (normpath (extract_to ++ [zip_basename e])) then
    fs_write fs (normpath (extract_to ++ [zip_basename e])) e.data
  else fs

/-- Embeds `extract_flattened`. -/
def extract_flattened (fs : Fs) (extract_to : FsPath) (protected_files : List String)
    (entries : List ZipEntry) : Fs :=
  entries.foldl (flatten_step extract_to protected_files) fs

/-- Loop body of `extract_with_structure`: full member path, safety
check first, then protected check, directory members only create
directories (no file write). -/
def structure_step (extract_to : FsPath) (protected_files : List String)
    (fs : Fs) (e : ZipEntry) : Fs :=
  if !(is_safe_path extract_to (normpath (extract_to ++ e.parts))) then fs
  else if is_protected (zip_basename e) (normpath (extract_to ++ e.parts))
      protected_files fs then fs
  else if e.is_dir then fs
  else fs_write fs (normpath (extract_to ++ e.parts)) e.data

/-- Embeds `extract_with_structure`. -/
def extract_with_structure (fs : Fs) (extract_to : FsPath) (protected_files : List String)
    (entries : List ZipEntry) : Fs :=
  entries.foldl (structure_step extract_to protected_files) fs

/-- The constant `MAX_UNCOMPRESSED_SIZE = 2 * 1024 * 1024 * 1024` (2GB). -/
def MAX_UNCOMPRESSED_SIZE : Nat := 2 * 1024 * 1024 * 1024

/-- The constant `MAX_FILES_PER_ZIP = 60000`. -/
def MAX_FILES_PER_ZIP : Nat := 60000

/-- A downloaded zip archive: its on-disk compressed size, the result
of `zip_ref.testzip()` (a corrupt member's name, if any), and its
member list. -/
structure ZipArchive where
  compressed_size : Nat
  bad_member : Option String
  entries : List ZipEntry
deriving Repr, DecidableEq

/-- Total declared uncompressed size (`sum(zinfo.file_size ...)`). -/
def zip_total_uncompressed (zip : ZipArchive) : Nat :=
  (zip.entries.map ZipEntry.file_size).sum

/-- Embeds `extract_and_discard_zip` on the modelled tree: the guards
run in source order (compressed size, CRC integrity, entry count, total
uncompressed size, free disk space) and each refusal deletes the
archive — which lives outside the modelled extraction tree — and
extracts nothing; otherwise one of the two extraction modes runs. -/
def extract_and_discard_zip (fs : Fs) (zip : ZipArchive) (extract_to : FsPath)
    (protected_files : List String) (should_flatten : Bool)
    (free_bytes : Option Nat) : Fs :=
  if zip.compressed_size > MAX_UNCOMPRESSED_SIZE then fs
  else if zip.bad_member.isSome then fs
  else if zip.entries.length > MAX_FILES_PER_ZIP then fs
  else if zip_total_uncompressed zip > MAX_UNCOMPRESSED_SIZE then fs
  else if (match free_bytes with
      | some fb => decide (fb < zip_total_uncompressed zip + 500 * 1024 * 1024)
      | none => false) then fs
  else if should_flatten then extract_flattened fs extract_to protected_files zip.entries
  else extract_with_structure fs extract_to protected_files zip.entries

/-! ### Path lemmas -/

/-- A component that normalization leaves alone. -/
def clean_comp (c : String) : Prop := c ≠ "." ∧ c ≠ ".." ∧ c ≠ ""

theorem norm_step_clean (acc : List String) (c : String)
    (h : ∀ x ∈ acc, clean_comp x) : ∀ x ∈ norm_step acc c, clean_comp x := by
  unfold norm_step
  split
  · exact h
  · split
    · intro x hx
      exact h x ((List.dropLast_sublist acc).mem hx)
    · intro x hx
      rcases List.mem_append.mp hx with hx1 | hx2
      · exact h x hx1
      · rcases List.mem_singleton.mp hx2 with rfl
        rename_i h1 h2
        simp only [Bool.or_eq_true, beq_iff_eq, not_or] at h1
        refine ⟨h1.1, ?_, h1.2⟩
        simpa using h2

theorem foldl_norm_step_clean (l : List String) (acc : List String)
    (h : ∀ x ∈ acc, clean_comp x) : ∀ x ∈ l.foldl norm_step acc, clean_comp x := by
  induction l generalizing acc with
  | nil => exact h
  | cons c cs ih => exact ih (norm_step acc c) (norm_step_clean acc c h)

theorem normpath_clean (p : FsPath) : ∀ x ∈ normpath p, clean_comp x :=
  foldl_norm_step_clean p [] (by intro x hx; simp at hx)

theorem norm_step_clean_comp (acc : List String) (c : String) (hc : clean_comp c) :
    norm_step acc c = acc ++ [c] := by
  unfold norm_step
  rw [if_neg, if_neg]
  · simpa using hc.2.1
  · simpa using And.intro hc.1 hc.2.2

theorem foldl_norm_step_clean_list (l : List String) (h : ∀ x ∈ l, clean_comp x) :
    ∀ acc, l.foldl norm_step acc = acc ++ l := by
  induction l with
  | nil => intro acc; simp
  | cons c cs ih =>
    intro acc
    rw [List.foldl_cons, norm_step_clean_comp acc c (h c (List.mem_cons_self c cs)),
      ih (fun x hx => h x (List.mem_cons_of_mem c hx)) (acc ++ [c])]
    simp

theorem normpath_idem (p : FsPath) : normpath (normpath p) = normpath p := by
  have := foldl_norm_step_clean_list (normpath p) (normpath_clean p) []
  simpa [normpath] using this

theorem normpath_append_clean (root : FsPath) (c : String) (hc : clean_comp c) :
    normpath (root ++ [c]) = normpath root ++ [c] := by
  unfold normpath
  rw [List.foldl_append]
  exact norm_step_clean_comp _ c hc

theorem commonpath_append_self (a t : FsPath) : commonpath a (a ++ t) = a := by
  induction a with
  | nil => cases t <;> rfl
  | cons x xs ih => simp [commonpath, ih]

theorem commonpath_eq_left (a b : FsPath) (h : commonpath a b = a) : ∃ t, b = a ++ t := by
  induction a generalizing b with
  | nil => exact ⟨b, rfl⟩
  | cons x xs ih =>
    cases b with
    | nil => simp [commonpath] at h
    | cons y ys =>
      unfold commonpath at h
      split at h
      · rename_i hxy
        rcases ih ys (by simpa using h) with ⟨t, rfl⟩
        exact ⟨t, by simp [eq_of_beq hxy]⟩
      · simp at h

theorem is_safe_path_descendant (base p : FsPath) (hp : normpath p = p)
    (h : is_safe_path base p = true) : ∃ t, p = normpath base ++ t := by
  unfold is_safe_path at h
  rw [hp] at h
  exact commonpath_eq_left _ _ (eq_of_beq h)

/-! ### Filesystem lemmas -/

theorem find?_filter_ne (fs : Fs) (p q : FsPath) (hpq : p ≠ q) :
    (fs.filter (fun e => e.1 != q)).find? (fun e => e.1 == p)
      = fs.find? (fun e => e.1 == p) := by
  induction fs with
  | nil => rfl
  | cons e rest ih =>
    by_cases he : e.1 = q
    · rw [List.filter_cons_of_neg (by simp [he]),
        List.find?_cons_of_neg _ (by simp [he]; exact fun hc => hpq hc.symm)]
      exact ih
    · rw [List.filter_cons_of_pos (by simpa using he)]
      by_cases hep : e.1 = p
      · rw [List.find?_cons_of_pos _ (by simpa using hep),
          List.find?_cons_of_pos _ (by simpa using hep)]
      · rw [List.find?_cons_of_neg _ (by simpa using hep),
          List.find?_cons_of_neg _ (by simpa using hep)]
        exact ih

theorem fs_read_write (fs : Fs) (q : FsPath) (d : String) (p : FsPath) :
    fs_read (fs_write fs q d) p = if p = q then some d else fs_read fs p := by
  by_cases hpq : p = q
  · subst hpq
    simp [fs_read, fs_write, List.find?_cons]
  · rw [if_neg hpq]
    unfold fs_read fs_write
    have hqp : (q == p) = false := by simp; exact fun hc => hpq hc.symm
    simp only [List.find?_cons, hqp]
    rw [find?_filter_ne fs p q hpq]

theorem foldl_frame (step : Fs → ZipEntry → Fs) (P : FsPath → Prop) (p : FsPath)
    (hstep : ∀ fs e, fs_read (step fs e) p ≠ fs_read fs p → P p)
    (entries : List ZipEntry) (fs : Fs)
    (h : fs_read (entries.foldl step fs) p ≠ fs_read fs p) : P p := by
  induction entries generalizing fs with
  | nil => exact absurd rfl h
  | cons e rest ih =>
    rw [List.foldl_cons] at h
    by_cases h1 : fs_read (rest.foldl step (step fs e)) p = fs_read (step fs e) p
    · exact hstep fs e (fun hh => h (h1.trans hh))
    · exact ih (step fs e) h1

theorem structure_step_frame (extract_to : FsPath) (prot : List String)
    (fs : Fs) (e : ZipEntry) (p : FsPath)
    (h : fs_read (structure_step extract_to prot fs e) p ≠ fs_read fs p) :
    is_safe_path extract_to p = true ∧ ∃ t, p = normpath extract_to ++ t := by
  unfold structure_step at h
  split at h
  · exact absurd rfl h
  · rename_i hsafe
    split at h
    · exact absurd rfl h
    · split at h
      · exact absurd rfl h
      · rw [fs_read_write] at h
        by_cases hp : p = normpath (extract_to ++ e.parts)
        · subst hp
          have hsafe2 : is_safe_path extract_to (normpath (extract_to ++ e.parts)) = true := by
            simpa using hsafe
          exact ⟨hsafe2, is_safe_path_descendant _ _ (normpath_idem _) hsafe2⟩
        · rw [if_neg hp] at h
          exact absurd rfl h

theorem flatten_step_frame (extract_to : FsPath) (prot : List String)
    (fs : Fs) (e : ZipEntry) (p : FsPath)
    (h : fs_read (flatten_step extract_to prot fs e) p ≠ fs_read fs p) :
    is_safe_path extract_to p = true ∧ ∃ t, p = normpath extract_to ++ t := by
  unfold flatten_step at h
  split at h
  · exact absurd rfl h
  · split at h
    · exact absurd rfl h
    · split at h
      · rename_i hsafe
        rw [fs_read_write] at h
        by_cases hp : p = normpath (extract_to ++ [zip_basename e])
        · subst hp
          exact ⟨hsafe, is_safe_path_descendant _ _ (normpath_idem _) hsafe⟩
        · rw [if_neg hp] at h
          exact absurd rfl h
      · exact absurd rfl h

/-- C6. In both extraction modes, any path whose contents differ after
extraction passes the `is_safe_path` guard and is a descendant of the
canonical extraction root (its components extend the canonical root's):
entries whose normalized target would escape the root are skipped and
nothing is ever written outside the root. -/
theorem c6_extraction_path_safety (fs : Fs) (extract_to : FsPath)
    (protected_files : List String) (entries : List ZipEntry) (p : FsPath) :
    (fs_read (extract_with_structure fs extract_to protected_files entries) p ≠ fs_read fs p →
        is_safe_path extract_to p = true ∧ ∃ t, p = normpath extract_to ++ t)
    ∧ (fs_read (extract_flattened fs extract_to protected_files entries) p ≠ fs_read fs p →
        is_safe_path extract_to p = true ∧ ∃ t, p = normpath extract_to ++ t) :=
  ⟨fun h => foldl_frame (structure_step extract_to protected_files)
      (fun q => is_safe_path extract_to q = true ∧ ∃ t, q = normpath extract_to ++ t) p
      (fun fs2 e hh => structure_step_frame extract_to protected_files fs2 e p hh) entries fs h,
   fun h => foldl_frame (flatten_step extract_to protected_files)
      (fun q => is_safe_path extract_to q = true ∧ ∃ t, q = normpath extract_to ++ t) p
      (fun fs2 e hh => flatten_step_frame extract_to protected_files fs2 e p hh) entries fs h⟩

/-- Witness for C6 at a concrete archive: extracting entry `a` into
root `r` changes `r/a`, which the theorem certifies as safe and inside
the root. -/
theorem c6_witness :
    is_safe_path ["r"] ["r", "a"] = true ∧ ∃ t, ["r", "a"] = normpath ["r"] ++ t :=
  (c6_extraction_path_safety [] ["r"] [] [⟨["a"], false, "x", 0⟩] ["r", "a"]).1 (by decide)

/-- C7. Extraction is refused, writing nothing, whenever the compressed
file size exceeds 2GB, the declared total uncompressed size exceeds
2GB, or the entry count exceeds 60,000; all three guards run before any
member is extracted. -/
theorem c7_extract_and_discard_zip (fs : Fs) (zip : ZipArchive) (extract_to : FsPath)
    (protected_files : List String) (should_flatten : Bool) (free_bytes : Option Nat)
    (h : zip.compressed_size > MAX_UNCOMPRESSED_SIZE
      ∨ zip_total_uncompressed zip > MAX_UNCOMPRESSED_SIZE
      ∨ zip.entries.length > MAX_FILES_PER_ZIP) :
    extract_and_discard_zip fs zip extract_to protected_files should_flatten free_bytes = fs := by
  unfold extract_and_discard_zip
  rcases h with h | h | h <;> split_ifs <;> first | rfl | omega

/-- Witness for C7: a 3GB compressed archive is refused and the tree is
untouched. -/
theorem c7_witness :
    extract_and_discard_zip [] ⟨3221225472, none, []⟩ ["r"] [] true none = [] :=
  c7_extract_and_discard_zip _ _ _ _ _ _ (Or.inl (by decide))

/-! ### Protected-file guard (C8) -/

theorem norm_step_dot (acc : List String) : norm_step acc "." = acc := by
  unfold norm_step
  rw [if_pos (by decide)]

theorem norm_step_dotdot (acc : List String) : norm_step acc ".." = acc.dropLast := by
  unfold norm_step
  rw [if_neg (by decide), if_pos (by decide)]

theorem normpath_append_one (root : FsPath) (c : String) :
    normpath (root ++ [c]) = norm_step (normpath root) c := by
  unfold normpath
  rw [List.foldl_append]
  rfl

theorem normpath_of_clean (l : FsPath) (h : ∀ x ∈ l, clean_comp x) : normpath l = l := by
  have := foldl_norm_step_clean_list l h []
  simpa [normpath] using this

theorem is_safe_path_append_clean (root : FsPath) (c : String) (hc : clean_comp c) :
    is_safe_path root (normpath (root ++ [c])) = true := by
  unfold is_safe_path
  rw [normpath_append_clean _ _ hc]
  rw [normpath_of_clean (normpath root ++ [c]) ?hclean]
  case hclean =>
    intro x hx
    rcases List.mem_append.mp hx with hx1 | hx2
    · exact normpath_clean root x hx1
    · rcases List.mem_singleton.mp hx2 with rfl
      exact hc
  rw [commonpath_append_self]
  simp

/-- C8 counterexample, structured mode. (A) The entry `../config.ini`
has the protected basename and no file exists at its normalized target,
yet the traversal guard skips it instead of extracting it. (B) With
`r/config.ini` protected and present, the matching entry `config.ini`
is skipped — but the sibling entry `config.ini/.` (basename `.`)
normalizes to the same path and overwrites the protected file, so its
contents are not preserved across the extraction. -/
theorem c8_counterexample :
    (extract_with_structure [] ["r"] ["config.ini"]
        [⟨["..", "config.ini"], false, "new", 0⟩] = []
      ∧ zip_basename ⟨["..", "config.ini"], false, "new", 0⟩ = "config.ini"
      ∧ fs_exists [] (normpath (["r"] ++ ["..", "config.ini"])) = false)
    ∧ (fs_read (extract_with_structure [(["r", "config.ini"], "orig")] ["r"] ["config.ini"]
          [⟨["config.ini"], false, "new", 0⟩, ⟨["config.ini", "."], false, "evil", 0⟩])
        ["r", "config.ini"] = some "evil"
      ∧ fs_read [(["r", "config.ini"], "orig")] ["r", "config.ini"] = some "orig") := by
  refine ⟨⟨by decide, by decide, by decide⟩, by decide, by decide⟩

theorem flatten_step_protected_frame (extract_to : FsPath) (protected_files : List String)
    (pname : String) (hm : pname ∈ protected_files) (hc : clean_comp pname)
    (fs : Fs) (e : ZipEntry) (v : String)
    (h : fs_read fs (normpath extract_to ++ [pname]) = some v) :
    fs_read (flatten_step extract_to protected_files fs e)
      (normpath extract_to ++ [pname]) = some v := by
  unfold flatten_step
  split
  · exact h
  · rename_i hb0
    split
    · exact h
    · rename_i hprot
      split
      · rw [fs_read_write]
        have hneq : normpath extract_to ++ [pname] ≠ normpath (extract_to ++ [zip_basename e]) := by
          intro heq
          by_cases hbd : zip_basename e = "."
          · rw [normpath_append_one, hbd, norm_step_dot] at heq
            have := congrArg List.length heq
            simp at this
          · by_cases hdd : zip_basename e = ".."
            · rw [normpath_append_one, hdd, norm_step_dotdot] at heq
              have := congrArg List.length heq
              simp [List.length_dropLast] at this
              omega
            · have hbne : zip_basename e ≠ "" := by
                intro hbe
                exact hb0 (by simp [hbe])
              have hcb : clean_comp (zip_basename e) := ⟨hbd, hdd, hbne⟩
              rw [normpath_append_clean _ _ hcb] at heq
              have hpb : pname = zip_basename e := by
                have h2 := List.append_cancel_left heq
                simpa using h2
              apply hprot
              unfold is_protected
              simp only [Bool.and_eq_true]
              refine ⟨?_, ?_⟩
              · exact List.any_eq_true.mpr ⟨pname, hm, by rw [hpb]; exact beq_self_eq_true _⟩
              · rw [normpath_append_clean _ _ hcb, ← hpb]
                unfold fs_exists
                rw [h]
                rfl
        rw [if_neg hneq]
        exact h
      · exact h

/-- C8 amended, flatten mode (the structured-mode deviations are shown
by the counterexample). For a protected filename that is a plain
component (not `.`, `..` or empty): an entry whose basename matches it
case-insensitively is skipped whenever a file exists at its computed
target; when no file exists there, the entry is extracted to the target
(the root-joined basename always passes the traversal guard); and a
pre-existing file at the protected target keeps its contents across the
whole flatten extraction. -/
theorem c8_extract_flattened_protected (extract_to : FsPath) (protected_files : List String)
    (pname : String) (hm : pname ∈ protected_files) (hc : clean_comp pname) :
    (∀ (fs : Fs) (e : ZipEntry), zip_basename e ≠ "" →
        str_lower (zip_basename e) = str_lower pname →
        fs_exists fs (normpath (extract_to ++ [zip_basename e])) = true →
        flatten_step extract_to protected_files fs e = fs)
    ∧ (∀ (fs : Fs) (e : ZipEntry), zip_basename e = pname →
        fs_exists fs (normpath (extract_to ++ [pname])) = false →
        flatten_step extract_to protected_files fs e
          = fs_write fs (normpath extract_to ++ [pname]) e.data)
    ∧ (∀ (entries : List ZipEntry) (fs : Fs) (v : String),
        fs_read fs (normpath extract_to ++ [pname]) = some v →
        fs_read (extract_flattened fs extract_to protected_files entries)
          (normpath extract_to ++ [pname]) = some v) := by
  refine ⟨?_, ?_, ?_⟩
  · intro fs e hne hmatch hex
    unfold flatten_step
    rw [if_neg (by simpa using hne), if_pos]
    unfold is_protected
    simp only [Bool.and_eq_true]
    exact ⟨List.any_eq_true.mpr ⟨pname, hm, by rw [hmatch]; exact beq_self_eq_true _⟩, hex⟩
  · intro fs e hb hfe
    unfold flatten_step
    rw [hb, if_neg (by simpa using hc.2.2), if_neg, if_pos (is_safe_path_append_clean _ _ hc),
      normpath_append_clean _ _ hc]
    unfold is_protected
    rw [hfe]
    simp
  · intro entries
    induction entries with
    | nil => intro fs v h; exact h
    | cons e rest ih =>
      intro fs v h
      exact ih (flatten_step extract_to protected_files fs e) v
        (flatten_step_protected_frame extract_to protected_files pname hm hc fs e v h)

/-- Witness for C8 at a concrete archive: with `config.ini` protected
and present under root `r`, a flatten extraction containing a
`config.ini` entry leaves the original contents in place. -/
theorem c8_witness :
    fs_read (extract_flattened [(["r", "config.ini"], "orig")] ["r"] ["config.ini"]
        [⟨["config.ini"], false, "new", 0⟩])
      (normpath ["r"] ++ ["config.ini"]) = some "orig" :=
  (c8_extract_flattened_protected ["r"] ["config.ini"] "config.ini"
      (by decide) ⟨by decide, by decide, by decide⟩).2.2
    [⟨["config.ini"], false, "new", 0⟩] [(["r", "config.ini"], "orig")] "orig" (by decide)

/-! ## Remote catalog client pagination (api.py) -/

/-- A resource payload as the pagination filter sees it. -/
structure ApiResource where
  can_download : Bool
  has_current_files : Bool
  payload : Nat
deriving Repr, DecidableEq

/-- The watched-page filter:
`res.get('can_download', False) and res.get('current_files')`. -/
def watched_ok (r : ApiResource) : Bool := r.can_download && r.has_current_files

/-- One user license wrapping its resource. -/
structure ApiLicense where
  resource : ApiResource
  payload : Nat
deriving Repr, DecidableEq

/-- The license filter:
`lic['resource']['can_download'] and lic['resource'].get('current_files')`. -/
def license_ok (l : ApiLicense) : Bool :=
  l.resource.can_download && l.resource.has_current_files

/-- Embeds `fetch_watched_page` against a server oracle giving each
page's response, `none` meaning the request raised; the `except` clause
turns an error into `([], 0)`. -/
def fetch_watched_page (server : Nat → Option (List ApiResource × Nat)) (page : Nat) :
    List ApiResource × Nat :=
  match server page with
  | some (resources, last_page) => (resources.filter watched_ok, last_page)
  | none => ([], 0)

/-- Embeds `fetch_licenses_page` the same way. -/
def fetch_licenses_page (server : Nat → Option (List ApiLicense × Nat)) (page : Nat) :
    List ApiLicense × Nat :=
  match server page with
  | some (licenses, last_page) => (licenses.filter license_ok, last_page)
  | none => ([], 0)

/-- Embeds `fetch_watched_resources`: fetch page 1; when its reported
`last_page` exceeds 1, gather pages `2..last_page` (concurrently in the
source; only the aggregated, page-ordered result is modelled) and
concatenate. -/
def fetch_watched_resources (server : Nat → Option (List ApiResource × Nat)) :
    List ApiResource :=
  if (fetch_watched_page server 1).2 ≤ 1 then (fetch_watched_page server 1).1
  else
    (fetch_watched_page server 1).1
      ++ ((List.range' 2 ((fetch_watched_page server 1).2 - 1)).map
            (fun p => (fetch_watched_page server p).1)).flatten

/-- Embeds `fetch_licenses` the same way. -/
def fetch_licenses (server : Nat → Option (List ApiLicense × Nat)) : List ApiLicense :=
  if (fetch_licenses_page server 1).2 ≤ 1 then (fetch_licenses_page server 1).1
  else
    (fetch_licenses_page server 1).1
      ++ ((List.range' 2 ((fetch_licenses_page server 1).2 - 1)).map
            (fun p => (fetch_licenses_page server p).1)).flatten

/-- C9 counterexample: when page 1 itself errors, `fetch_watched_page`
reports `last_page = 0` and the listing returns empty — page 2's
results are discarded even though its fetch succeeds, so a single
page's failure is not always isolated. -/
theorem c9_counterexample :
    fetch_watched_resources
        (fun p => if p == 2 then some ([⟨true, true, 42⟩], 2) else none) = []
    ∧ fetch_watched_page
        (fun p => if p == 2 then some ([⟨true, true, 42⟩], 2) else none) 2
      = ([⟨true, true, 42⟩], 2) :=
  ⟨rfl, rfl⟩

/-- C9 amended. Provided the page-1 fetch succeeds and reports
`last_page ≥ 1`: the listing equals the in-order concatenation of the
per-page results for pages `1..last_page`, where an erroring page
contributes an empty result and a succeeding page contributes its
filtered items — so a failure on a page other than page 1 never
discards the other pages. When page 1 errors, the whole listing is
empty (its `last_page` is unknown). Both the watched and the license
listings behave this way. -/
theorem c9_pagination
    (wserver : Nat → Option (List ApiResource × Nat))
    (lserver : Nat → Option (List ApiLicense × Nat))
    (witems : List ApiResource) (wlp : Nat) (litems : List ApiLicense) (llp : Nat)
    (hw : wserver 1 = some (witems, wlp)) (hl : lserver 1 = some (litems, llp))
    (hwlp : 1 ≤ wlp) (hllp : 1 ≤ llp) :
    fetch_watched_resources wserver
      = ((List.range' 1 wlp).map (fun p => (fetch_watched_page wserver p).1)).flatten
    ∧ fetch_licenses lserver
      = ((List.range' 1 llp).map (fun p => (fetch_licenses_page lserver p).1)).flatten
    ∧ (∀ p, wserver p = none → (fetch_watched_page wserver p).1 = [])
    ∧ (∀ p res lp2, wserver p = some (res, lp2) →
        (fetch_watched_page wserver p).1 = res.filter watched_ok)
    ∧ (∀ p, lserver p = none → (fetch_licenses_page lserver p).1 = [])
    ∧ (∀ p lics lp2, lserver p = some (lics, lp2) →
        (fetch_licenses_page lserver p).1 = lics.filter license_ok) := by
  have h1 : fetch_watched_page wserver 1 = (witems.filter watched_ok, wlp) := by
    simp [fetch_watched_page, hw]
  have h2 : fetch_licenses_page lserver 1 = (litems.filter license_ok, llp) := by
    simp [fetch_licenses_page, hl]
  have hrange : ∀ n, 1 ≤ n → List.range' 1 n = 1 :: List.range' 2 (n - 1) := by
    intro n hn
    cases n with
    | zero => omega
    | succ m => rw [List.range'_succ]; norm_num
  refine ⟨?_, ?_, ?_, ?_, ?_, ?_⟩
  · unfold fetch_watched_resources
    rw [h1, hrange wlp hwlp]
    by_cases hle : wlp ≤ 1
    · have : wlp = 1 := le_antisymm hle hwlp
      subst this
      simp [h1]
    · rw [if_neg hle]
      simp [h1]
  · unfold fetch_licenses
    rw [h2, hrange llp hllp]
    by_cases hle : llp ≤ 1
    · have : llp = 1 := le_antisymm hle hllp
      subst this
      simp [h2]
    · rw [if_neg hle]
      simp [h2]
  · intro p hp
    simp [fetch_watched_page, hp]
  · intro p res lp2 hp
    simp [fetch_watched_page, hp]
  · intro p hp
    simp [fetch_licenses_page, hp]
  · intro p lics lp2 hp
    simp [fetch_licenses_page, hp]

/-- Witness for C9 at a concrete single-page server: the listing equals
page 1's filtered items. -/
theorem c9_witness :
    fetch_watched_resources
        (fun p => if p == 1 then some ([⟨true, true, 7⟩], 1) else none)
      = [⟨true, true, 7⟩] :=
  ((c9_pagination
      (fun p => if p == 1 then some ([⟨true, true, 7⟩], 1) else none)
      (fun p => if p == 1 then some ([], 1) else none)
      [⟨true, true, 7⟩] 1 [] 1 rfl rfl (by decide) (by decide)).1).trans (by decide)

end Redfetch
